import Mathlib

/-!
Verification development for the image synchronization script
(scripts/sync-images-to-r2.js) and its manifest handling.

The pipeline is embedded shallowly: external capabilities (network fetch,
sharp transcoding, the object store client, the sha1 hash) are supplied as
function parameters in an environment record, while all control flow of the
script (the per URL attempt loop, conditional headers, 304 handling, the
content addressed key, the manifest bookkeeping, deduplication and sorting,
canonical serialization) is translated directly from the source.
-/

/-- Table MIME_TO_EXT from the source: supported media types and their
canonical file extensions. -/
def MIME_TO_EXT : List (String × String) :=
  [("image/jpeg", "jpg"), ("image/jpg", "jpg"), ("image/png", "png"),
   ("image/webp", "webp"), ("image/gif", "gif")]

/-- Set SUPPORTED_MIME from the source: the keys of MIME_TO_EXT. -/
def SUPPORTED_MIME : List String := MIME_TO_EXT.map Prod.fst

/-- Whitespace test matching the characters relevant to header cleaning. -/
def isSpaceChar (c : Char) : Bool :=
  c == ' ' || c == '\t' || c == '\n' || c == '\r'

/-- Trimming of leading and trailing whitespace on a character list. -/
def trimChars (l : List Char) : List Char :=
  ((l.dropWhile isSpaceChar).reverse.dropWhile isSpaceChar).reverse

/-- Cleaning step of normaliseMime: take the part of the header before the
first semicolon, trim it and lowercase it. -/
def mimeClean (s : String) : String :=
  String.mk ((trimChars (s.data.takeWhile (fun c => c != ';'))).map Char.toLower)

/-- Test whether the second list is an initial segment of the first. -/
def leadsWith : List Char → List Char → Bool
  | _, [] => true
  | [], _ :: _ => false
  | y :: ys, x :: xs => x == y && leadsWith ys xs

/-- Test whether the string s starts with the pattern pat. -/
def strStarts (s pat : String) : Bool := leadsWith s.data pat.data

/-- Function normaliseMime from the source. The argument is the raw
Content-Type header, none standing for a missing header (null in JS); the
empty string is falsy in JS and also falls back to the default type. -/
def normaliseMime : Option String → String
  | none => "image/jpeg"
  | some s =>
    if s = "" then "image/jpeg"
    else
      let clean := mimeClean s
      if SUPPORTED_MIME.contains clean then clean
      else if strStarts clean "image/" then clean
      else "image/jpeg"

/-- Result of resizeBuffer: re-encoded bytes, canonical media type and
canonical extension. Bytes are modelled as lists of naturals. -/
structure Processed where
  buffer : List Nat
  mime : String
  ext : String
deriving DecidableEq, Repr

/-- Classification of one HTTP response of the fetch call. respOk carries
the raw etag, last-modified and content-type header values (none for a null
header) and the body bytes; respStatus is any non-2xx, non-304 status and
respError a transport level failure, both of which throw in the source. -/
inductive FetchResp where
  | resp304
  | respOk (etag lastModified contentType : Option String) (body : List Nat)
  | respStatus (status : Nat)
  | respError (msg : String)
deriving DecidableEq, Repr

/-- Environment of external capabilities consumed by the script: the
attempt budget MAX_FETCH_ATTEMPTS, the network fetch (indexed by source
URL, 1-based attempt number and request headers), the four sharp encoders
behind resizeBuffer, the sha1 hex digest, and the object store client
(HEAD and PUT, indexed by attempt number so that transient store failures
can be expressed). -/
structure Env where
  maxAttempts : Nat
  fetch : String → Nat → List (String × String) → FetchResp
  encodeJpeg : List Nat → Except String (List Nat)
  encodePng : List Nat → Except String (List Nat)
  encodeWebp : List Nat → Except String (List Nat)
  encodeGif : List Nat → Except String (List Nat)
  sha1 : List Nat → String
  headR2 : Nat → String → Except String Bool
  putR2 : Nat → String → Except String Unit

/-- Function resizeBuffer from the source: pick the target media type
(falling back to jpeg when unsupported), derive the extension from
MIME_TO_EXT, and dispatch on the extension to the matching encoder. The
sharp resize step itself is part of the abstract encoders. -/
def resizeBuffer (env : Env) (inputBuffer : List Nat) (mime : String) :
    Except String Processed :=
  let targetMime := if SUPPORTED_MIME.contains mime then mime else "image/jpeg"
  let ext := (List.lookup targetMime MIME_TO_EXT).getD "jpg"
  match ext with
  | "png" =>
    match env.encodePng inputBuffer with
    | Except.ok b => Except.ok ⟨b, "image/png", "png"⟩
    | Except.error e => Except.error e
  | "webp" =>
    match env.encodeWebp inputBuffer with
    | Except.ok b => Except.ok ⟨b, "image/webp", "webp"⟩
    | Except.error e => Except.error e
  | "gif" =>
    match env.encodeGif inputBuffer with
    | Except.ok b => Except.ok ⟨b, "image/gif", "gif"⟩
    | Except.error e => Except.error e
  | _ =>
    match env.encodeJpeg inputBuffer with
    | Except.ok b => Except.ok ⟨b, "image/jpeg", "jpg"⟩
    | Except.error e => Except.error e

/-- Record of the URL manifest: cache validators, stored object key and
media type, all optional. Mirrors the objects written at the two manifest
write sites of processOffer. -/
structure ManifestRecord where
  etag : Option String
  lastModified : Option String
  r2Key : Option String
  mime : Option String
deriving DecidableEq, Repr

/-- Record with no fields set, the fallback value of prevMeta. -/
def emptyRecord : ManifestRecord := ⟨none, none, none, none⟩

/-- JS truthiness of an optional string: present and non-empty. -/
def optTruthy : Option String → Bool
  | none => false
  | some s => s != ""

/-- Model of the JS idiom (value or undefined): an empty header string is
replaced by none, as in response.headers.get(..) or undefined. -/
def orUndef : Option String → Option String
  | none => none
  | some s => if s = "" then none else some s

/-- Conditional request headers as built at the top of the attempt loop:
If-None-Match and If-Modified-Since are only attached when conditional mode
is on and the corresponding validator is truthy. -/
def condHeaders (conditional : Bool) (m : ManifestRecord) :
    List (String × String) :=
  if conditional then
    (match m.etag with
     | some e => if e != "" then [("If-None-Match", e)] else []
     | none => []) ++
    (match m.lastModified with
     | some lm => if lm != "" then [("If-Modified-Since", lm)] else []
     | none => [])
  else []

/-- Content addressed object key, line 174 of the source: the img prefix,
the sha1 hex digest of the transcoded bytes, and the canonical extension. -/
def storedKey (env : Env) (p : Processed) : String :=
  "img/" ++ env.sha1 p.buffer ++ "." ++ p.ext

/-- Outcome of a single iteration of the attempt loop. fresh is a completed
2xx pipeline (uploaded true means PUT was performed, false means the object
already existed); reuse is a 304 backed by a stored key; retry304 is a 304
without a stored key (conditional mode is dropped and the loop continues);
failed is any thrown error caught by the catch block. -/
inductive AttemptOutcome where
  | fresh (key : String) (rec : ManifestRecord) (uploaded : Bool)
  | reuse (key : String)
  | retry304
  | failed (msg : String)
deriving DecidableEq, Repr

/-- External calls performed while servicing attempts: transcode inputs,
HEAD keys and PUT keys, in order. -/
structure Effects where
  transcodeCalls : List (List Nat × String)
  headCalls : List String
  putCalls : List String
deriving DecidableEq, Repr

/-- Empty effect record. -/
def noEffects : Effects := ⟨[], [], []⟩

/-- Concatenation of effect records. -/
def effAppend (a b : Effects) : Effects :=
  ⟨a.transcodeCalls ++ b.transcodeCalls, a.headCalls ++ b.headCalls,
   a.putCalls ++ b.putCalls⟩

/-- Log of one executed attempt: its 1-based number, the request headers
sent, its outcome, and the backoff sleep in milliseconds performed after it
(none when no sleep happened). -/
structure AttemptLog where
  idx : Nat
  headers : List (String × String)
  outcome : AttemptOutcome
  slept : Option Nat
deriving DecidableEq, Repr

/-- Post-fetch part of a 2xx attempt, lines 166 to 201 of the source:
transcode, hash, existence check, conditional upload, and assembly of the
new manifest record. Every thrown error becomes a failed outcome with the
message produced at the corresponding throw site. -/
def doFresh (env : Env) (idx : Nat) (etag lastModified : Option String)
    (contentType : String) (body : List Nat) : AttemptOutcome × Effects :=
  match resizeBuffer env body contentType with
  | Except.error msg => (AttemptOutcome.failed msg, ⟨[(body, contentType)], [], []⟩)
  | Except.ok processed =>
    let key := storedKey env processed
    match env.headR2 idx key with
    | Except.error msg =>
      (AttemptOutcome.failed ("HEAD failed: " ++ msg),
       ⟨[(body, contentType)], [key], []⟩)
    | Except.ok exists0 =>
      if exists0 then
        (AttemptOutcome.fresh key ⟨etag, lastModified, some key, some processed.mime⟩ false,
         ⟨[(body, contentType)], [key], []⟩)
      else
        match env.putR2 idx key with
        | Except.error msg =>
          (AttemptOutcome.failed ("Upload failed: " ++ msg),
           ⟨[(body, contentType)], [key], [key]⟩)
        | Except.ok _ =>
          (AttemptOutcome.fresh key ⟨etag, lastModified, some key, some processed.mime⟩ true,
           ⟨[(body, contentType)], [key], [key]⟩)

/-- One iteration of the attempt loop body, lines 142 to 201: build the
conditional headers, fetch, and classify the response. A 304 yields reuse
exactly when prevMeta carries a truthy stored key, and retry304 otherwise;
a non-ok status or transport failure throws. -/
def doAttempt (env : Env) (url : String) (prevMeta : ManifestRecord)
    (idx : Nat) (conditional : Bool) :
    List (String × String) × AttemptOutcome × Effects :=
  let headers := condHeaders conditional prevMeta
  match env.fetch url idx headers with
  | FetchResp.resp304 =>
    match prevMeta.r2Key with
    | some k =>
      if k != "" then (headers, AttemptOutcome.reuse k, noEffects)
      else (headers, AttemptOutcome.retry304, noEffects)
    | none => (headers, AttemptOutcome.retry304, noEffects)
  | FetchResp.respOk etag lastModified contentType body =>
    let out := doFresh env idx (orUndef etag) (orUndef lastModified)
      (normaliseMime contentType) body
    (headers, out.1, out.2)
  | FetchResp.respStatus s => (headers, AttemptOutcome.failed ("HTTP " ++ toString s), noEffects)
  | FetchResp.respError msg => (headers, AttemptOutcome.failed msg, noEffects)

/-- Terminal state of the attempt loop. exhaustedError mirrors a loop exit
with lastError set (the URL is skipped); exhaustedClean mirrors a loop exit
with lastError null and nothing resolved, which happens when every
remaining attempt ended in retry304. -/
inductive LoopFinal where
  | resolvedFresh (key : String) (rec : ManifestRecord) (uploaded : Bool)
  | resolved304 (key : String)
  | exhaustedError (msg : String)
  | exhaustedClean
deriving DecidableEq, Repr

/-- Full result of the attempt loop: the attempt logs, the accumulated
external calls, and the terminal state. -/
structure LoopOut where
  logs : List AttemptLog
  eff : Effects
  fin : LoopFinal
deriving DecidableEq, Repr

/-- The while loop of processOffer, lines 139 to 208, with fuel counting
the attempts still permitted (the loop runs while attempt is below
MAX_FETCH_ATTEMPTS). On success or reuse the loop breaks. On retry304 the
loop continues with conditional mode off and no sleep. On a caught error
the loop breaks without sleeping when this was the last permitted attempt,
and otherwise sleeps 200 times 2 to the power (attempt - 1) milliseconds
and continues with conditional mode off. -/
def runLoop (env : Env) (url : String) (prevMeta : ManifestRecord) :
    Nat → Nat → Bool → LoopOut
  | 0, _, _ => ⟨[], noEffects, LoopFinal.exhaustedClean⟩
  | fuel + 1, idx, conditional =>
    match doAttempt env url prevMeta idx conditional with
    | (headers, AttemptOutcome.fresh k rec up, eff) =>
      ⟨[⟨idx, headers, AttemptOutcome.fresh k rec up, none⟩], eff,
       LoopFinal.resolvedFresh k rec up⟩
    | (headers, AttemptOutcome.reuse k, eff) =>
      ⟨[⟨idx, headers, AttemptOutcome.reuse k, none⟩], eff,
       LoopFinal.resolved304 k⟩
    | (headers, AttemptOutcome.retry304, eff) =>
      let rest := runLoop env url prevMeta fuel (idx + 1) false
      ⟨⟨idx, headers, AttemptOutcome.retry304, none⟩ :: rest.logs,
       effAppend eff rest.eff, rest.fin⟩
    | (headers, AttemptOutcome.failed msg, eff) =>
      if fuel = 0 then
        ⟨[⟨idx, headers, AttemptOutcome.failed msg, none⟩], eff,
         LoopFinal.exhaustedError msg⟩
      else
        let rest := runLoop env url prevMeta fuel (idx + 1) false
        ⟨⟨idx, headers, AttemptOutcome.failed msg, some (200 * 2 ^ (idx - 1))⟩ :: rest.logs,
         effAppend eff rest.eff, rest.fin⟩

/-- Statistics counters of one run. -/
structure Stats where
  uploaded : Nat
  reused304 : Nat
  reusedExisting : Nat
  skipped : Nat
deriving DecidableEq, Repr

/-- Pointwise sum of statistics. -/
def addStats (a b : Stats) : Stats :=
  ⟨a.uploaded + b.uploaded, a.reused304 + b.reused304,
   a.reusedExisting + b.reusedExisting, a.skipped + b.skipped⟩

/-- Zero statistics. -/
def zeroStats : Stats := ⟨0, 0, 0, 0⟩

/-- Result of driving one source URL through the attempt loop: the logs and
effects, the terminal state, the public URL pushed onto resolvedUrls (if
any), the record written into the next manifest (if any), the statistics
increments, and the warning printed when the URL is skipped. -/
structure UrlRun where
  logs : List AttemptLog
  eff : Effects
  fin : LoopFinal
  resolvedUrl : Option String
  manifestWrite : Option ManifestRecord
  statsDelta : Stats
  warned : Option String
deriving DecidableEq, Repr

/-- Whole treatment of one source URL, lines 134 to 213: the loop starts at
attempt 1 with conditional mode on exactly when prevMeta holds a truthy
validator, and the terminal state determines the pushes, manifest write,
statistics and warning. On a 304 reuse the record written is a copy of
prevMeta. -/
def runUrl (env : Env) (url : String) (prevMeta : ManifestRecord)
    (publicBase : String) : UrlRun :=
  let conditional := optTruthy prevMeta.etag || optTruthy prevMeta.lastModified
  let out := runLoop env url prevMeta env.maxAttempts 1 conditional
  match out.fin with
  | LoopFinal.resolvedFresh key rec uploaded =>
    ⟨out.logs, out.eff, out.fin, some (publicBase ++ "/" ++ key), some rec,
     if uploaded then ⟨1, 0, 0, 0⟩ else ⟨0, 0, 1, 0⟩, none⟩
  | LoopFinal.resolved304 key =>
    ⟨out.logs, out.eff, out.fin, some (publicBase ++ "/" ++ key), some prevMeta,
     ⟨0, 1, 0, 0⟩, none⟩
  | LoopFinal.exhaustedError msg =>
    ⟨out.logs, out.eff, out.fin, none, none, ⟨0, 0, 0, 1⟩,
     some ("Skip " ++ url ++ ": " ++ msg)⟩
  | LoopFinal.exhaustedClean =>
    ⟨out.logs, out.eff, out.fin, none, none, zeroStats, none⟩

/-- Lookup in a manifest modelled as an association list keyed by the raw
source URL. -/
def lookupM (m : List (String × ManifestRecord)) (k : String) :
    Option ManifestRecord :=
  (m.find? (fun p => p.1 == k)).map Prod.snd

/-- Property assignment on a manifest object: replace the record when the
key is present, append it otherwise. -/
def setM (m : List (String × ManifestRecord)) (k : String)
    (r : ManifestRecord) : List (String × ManifestRecord) :=
  if (m.find? (fun p => p.1 == k)).isSome then
    m.map (fun p => if p.1 == k then (k, r) else p)
  else m ++ [(k, r)]

/-- One input entry: an offer identifier and its candidate image URLs. -/
structure Entry where
  offerId : String
  urls : List String
deriving DecidableEq, Repr

/-- Per offer output: the identifier and the resolved public URLs. -/
structure OfferResult where
  offerId : String
  urls : List String
deriving DecidableEq, Repr

/-- First-occurrence deduplication with an accumulator of already seen
elements, structurally recursive so that it evaluates by reduction. -/
def dedupGo (seen : List String) : List String → List String
  | [] => []
  | x :: xs => if seen.contains x then dedupGo seen xs else x :: dedupGo (x :: seen) xs

/-- First-occurrence deduplication, the behaviour of building a JS Set from
a list and reading it back in insertion order. -/
def dedupFirst (l : List String) : List String := dedupGo [] l

/-- Whitespace trimming on strings, implemented over the character list. -/
def jsTrim (s : String) : String := String.mk (trimChars s.data)

/-- Line 123 of the source: trim every candidate URL, drop falsy (empty)
ones, and deduplicate keeping first occurrences. -/
def uniqueUrls (urls : List String) : List String :=
  dedupFirst ((urls.map jsTrim).filter (fun s => s != ""))

/-- Mutable state threaded through the per URL loop of one offer: the
shared next manifest, the statistics, the resolved URLs of this offer, and
a trace recording one element per URL iteration (none when the URL was
short-circuited from the next manifest without any fetch). -/
structure OfferState where
  nextManifest : List (String × ManifestRecord)
  stats : Stats
  resolved : List String
  trace : List (String × Option UrlRun)
deriving DecidableEq, Repr

/-- Fallback chain of line 134 of the source: prevMeta is the next-manifest
record, else the previous-manifest record, else the empty object. -/
def prevMetaOf (next previous : List (String × ManifestRecord))
    (srcUrl : String) : ManifestRecord :=
  ((lookupM next srcUrl).orElse (fun _ => lookupM previous srcUrl)).getD emptyRecord

/-- Body of the per URL loop of processOffer, lines 128 to 214: a URL whose
next-manifest record already carries a truthy stored key resolves
immediately without fetching; otherwise prevMeta is the next-manifest
record, else the previous-manifest record, else empty, the attempt loop
runs, and its outcome is folded into the state. -/
def processUrlStep (env : Env) (publicBase : String)
    (previousManifest : List (String × ManifestRecord))
    (st : OfferState) (srcUrl : String) : OfferState :=
  let short : Option String :=
    match lookupM st.nextManifest srcUrl with
    | some r =>
      match r.r2Key with
      | some k => if k != "" then some k else none
      | none => none
    | none => none
  match short with
  | some k =>
    ⟨st.nextManifest, st.stats, st.resolved ++ [publicBase ++ "/" ++ k],
     st.trace ++ [(srcUrl, none)]⟩
  | none =>
    let run := runUrl env srcUrl (prevMetaOf st.nextManifest previousManifest srcUrl) publicBase
    ⟨(match run.manifestWrite with
      | some rec => setM st.nextManifest srcUrl rec
      | none => st.nextManifest),
     addStats st.stats run.statsDelta,
     st.resolved ++ (match run.resolvedUrl with
      | some u => [u]
      | none => []),
     st.trace ++ [(srcUrl, some run)]⟩

/-- Function processOffer from the source: guard degenerate entries, build
the unique URL list, drive every URL, and emit a result exactly when at
least one URL resolved. -/
def processOffer (env : Env) (publicBase : String)
    (previousManifest nextManifest0 : List (String × ManifestRecord))
    (stats0 : Stats) (entry : Entry) : Option OfferResult × OfferState :=
  let st0 : OfferState := ⟨nextManifest0, stats0, [], []⟩
  if entry.offerId = "" then (none, st0)
  else if entry.urls = [] then (none, st0)
  else
    let us := uniqueUrls entry.urls
    if us = [] then (none, st0)
    else
      let st := us.foldl (processUrlStep env publicBase previousManifest) st0
      (if st.resolved = [] then none else some ⟨entry.offerId, st.resolved⟩, st)

/-- Model of the JS idiom (Number(x) or d): none stands for an unset or
non-numeric variable (NaN), and zero is falsy, so both select the default. -/
def numberOr (raw : Option Int) (d : Int) : Int :=
  match raw with
  | none => d
  | some n => if n = 0 then d else n

/-- Line 18 of the source: CONCURRENCY is the configured value passed
through (Number(x) or 4) and clamped from below by 1. -/
def concurrencyValue (raw : Option Int) : Int := max 1 (numberOr raw 4)

/-- Line 260 of the source: the worker count is the minimum of CONCURRENCY
and the number of entries. -/
def workerCount (concurrency : Int) (taskCount : Nat) : Int :=
  min concurrency (taskCount : Int)

/-- String comparison used as the model of both the default JS sort on
strings and localeCompare based ordering. -/
def dedupSortUrls (urls : List String) : List String :=
  List.insertionSort (fun a b => a ≤ b) (dedupFirst urls)

/-- Ordering of offer results by identifier. -/
def offerLe (a b : OfferResult) : Prop := a.offerId ≤ b.offerId

instance : DecidableRel offerLe := fun a b =>
  inferInstanceAs (Decidable (a.offerId ≤ b.offerId))

instance : IsTotal OfferResult offerLe := ⟨fun a b => le_total a.offerId b.offerId⟩

instance : IsTrans OfferResult offerLe :=
  ⟨fun _ _ _ h₁ h₂ => le_trans h₁ h₂⟩

/-- Lines 284 to 289 of the source: per offer, deduplicate and sort the
resolved URLs, then sort the offers by identifier. -/
def assembleOffers (results : List OfferResult) : List OfferResult :=
  List.insertionSort offerLe
    (results.map (fun r => ⟨r.offerId, dedupSortUrls r.urls⟩))

/-- Predicate over a fetch response: it throws in the attempt body (non-ok
status or transport failure). -/
def isFailResp : FetchResp → Bool
  | FetchResp.respStatus _ => true
  | FetchResp.respError _ => true
  | _ => false

/-- Fetching this URL fails on every attempt. -/
def AlwaysFailFetch (env : Env) (url : String) : Prop :=
  ∀ idx hdrs, isFailResp (env.fetch url idx hdrs) = true

/-- Fetching this URL returns 304 on every attempt. -/
def All304Fetch (env : Env) (url : String) : Prop :=
  ∀ idx hdrs, env.fetch url idx hdrs = FetchResp.resp304

/-- The four abstract encoders produce format-distinguishable outputs: two
encoders of different formats never emit the same byte string. Real image
encodings satisfy this because each format fixes its own magic bytes. -/
def EncodersDistinct (env : Env) : Prop :=
  (∀ x y a b, env.encodeJpeg x = Except.ok a → env.encodePng y = Except.ok b → a ≠ b) ∧
  (∀ x y a b, env.encodeJpeg x = Except.ok a → env.encodeWebp y = Except.ok b → a ≠ b) ∧
  (∀ x y a b, env.encodeJpeg x = Except.ok a → env.encodeGif y = Except.ok b → a ≠ b) ∧
  (∀ x y a b, env.encodePng x = Except.ok a → env.encodeWebp y = Except.ok b → a ≠ b) ∧
  (∀ x y a b, env.encodePng x = Except.ok a → env.encodeGif y = Except.ok b → a ≠ b) ∧
  (∀ x y a b, env.encodeWebp x = Except.ok a → env.encodeGif y = Except.ok b → a ≠ b)

/-- JSON value tree, the shape manipulated by sortObjectDeep and serialized
by JSON.stringify. Object fields are kept as an ordered association list,
reflecting JS property insertion order. -/
inductive Json where
  | null
  | bool (b : Bool)
  | num (n : Int)
  | str (s : String)
  | arr (xs : List Json)
  | obj (fields : List (String × Json))

/-- Ordering of object fields by key, the comparator behind
Object.keys(value).sort(). -/
def keyLe (a b : String × Json) : Prop := a.1 ≤ b.1

instance : DecidableRel keyLe := fun a b =>
  inferInstanceAs (Decidable (a.1 ≤ b.1))

instance : IsTotal (String × Json) keyLe := ⟨fun a b => le_total a.1 b.1⟩

instance : IsTrans (String × Json) keyLe :=
  ⟨fun _ _ _ h₁ h₂ => le_trans h₁ h₂⟩

/-- Strict ordering of object fields by key. -/
def keyLt (a b : String × Json) : Prop := a.1 < b.1

instance : IsAntisymm (String × Json) keyLt :=
  ⟨fun _ _ h₁ h₂ => absurd h₂ (lt_asymm h₁)⟩

/-- Sorting of object fields by key. -/
def sortPairs (fs : List (String × Json)) : List (String × Json) :=
  List.insertionSort keyLe fs

mutual

/-- Function sortObjectDeep from the source: arrays are mapped recursively
and objects are rebuilt with their keys sorted and their values sorted
recursively. Since JS object keys are unique and the sort compares keys
only, recursing into the values before or after sorting is equivalent; the
values are recursed first here. -/
def sortObjectDeep : Json → Json
  | Json.null => Json.null
  | Json.bool b => Json.bool b
  | Json.num n => Json.num n
  | Json.str s => Json.str s
  | Json.arr xs => Json.arr (sortListDeep xs)
  | Json.obj fs => Json.obj (sortPairs (sortFieldsDeep fs))

/-- Recursive value mapping of sortObjectDeep over array elements. -/
def sortListDeep : List Json → List Json
  | [] => []
  | x :: xs => sortObjectDeep x :: sortListDeep xs

/-- Recursive value mapping of sortObjectDeep over object fields. -/
def sortFieldsDeep : List (String × Json) → List (String × Json)
  | [] => []
  | (k, v) :: fs => (k, sortObjectDeep v) :: sortFieldsDeep fs

end

/-- Escaping of one character inside a JSON string literal, as performed by
JSON.stringify. -/
def escChar (c : Char) : String :=
  if c = '"' then "\\\""
  else if c = '\\' then "\\\\"
  else if c = '\n' then "\\n"
  else if c = '\t' then "\\t"
  else if c = '\r' then "\\r"
  else String.singleton c

/-- JSON string literal rendering. -/
def renderStr (s : String) : String :=
  "\"" ++ String.join (s.data.map escChar) ++ "\""

/-- Repeated spaces used for two-space indentation. -/
def spaces (n : Nat) : String := String.mk (List.replicate n ' ')

mutual

/-- JSON.stringify(v, null, 2) at nesting depth d. -/
def renderJson (d : Nat) : Json → String
  | Json.null => "null"
  | Json.bool true => "true"
  | Json.bool false => "false"
  | Json.num n => toString n
  | Json.str s => renderStr s
  | Json.arr [] => "[]"
  | Json.arr (x :: xs) =>
    "[\n" ++ renderArrItems (d + 1) (x :: xs) ++ "\n" ++ spaces (2 * d) ++ "]"
  | Json.obj [] => "\x7b\x7d"
  | Json.obj (f :: fs) =>
    "\x7b\n" ++ renderObjItems (d + 1) (f :: fs) ++ "\n" ++ spaces (2 * d) ++ "\x7d"

/-- Comma separated array items, one per line, at depth d. -/
def renderArrItems (d : Nat) : List Json → String
  | [] => ""
  | [x] => spaces (2 * d) ++ renderJson d x
  | x :: y :: t =>
    spaces (2 * d) ++ renderJson d x ++ ",\n" ++ renderArrItems d (y :: t)

/-- Comma separated object fields, one per line, at depth d. -/
def renderObjItems (d : Nat) : List (String × Json) → String
  | [] => ""
  | [(k, v)] => spaces (2 * d) ++ renderStr k ++ ": " ++ renderJson d v
  | (k, v) :: f :: t =>
    spaces (2 * d) ++ renderStr k ++ ": " ++ renderJson d v ++ ",\n" ++
      renderObjItems d (f :: t)

end

/-- Top level JSON.stringify(v, null, 2). -/
def render2 (v : Json) : String := renderJson 0 v

/-- Canonical byte form of a manifest value, line 291 to 293 of the source:
deep key sorting followed by JSON.stringify with two-space indentation. -/
def manifestString (v : Json) : String := render2 (sortObjectDeep v)

/-- Line 295 of the source: the manifest changed exactly when the canonical
serializations of the next and previous manifests differ. -/
def manifestChanged (prev next : Json) : Bool :=
  manifestString next != manifestString prev

/-- Lines 300 to 306 of the source: the manifest is mirrored to the object
store exactly when it changed. -/
def mirroredToStore (prev next : Json) : Bool := manifestChanged prev next

/-- Optional manifest field rendered as a JSON string field. -/
def optField (k : String) : Option String → List (String × Json)
  | none => []
  | some s => [(k, Json.str s)]

/-- JSON object fields of one manifest record, in the insertion order of
the write site (etag, lastModified, r2Key, mime); absent options are
dropped as JSON.stringify drops undefined properties. -/
def recordFields (r : ManifestRecord) : List (String × Json) :=
  optField "etag" r.etag ++ optField "lastModified" r.lastModified ++
    optField "r2Key" r.r2Key ++ optField "mime" r.mime

/-- JSON value of one manifest record. -/
def recordJson (r : ManifestRecord) : Json := Json.obj (recordFields r)

/-- JSON value of a whole manifest mapping in its insertion order. -/
def manifestJson (m : List (String × ManifestRecord)) : Json :=
  Json.obj (m.map (fun p => (p.1, recordJson p.2)))

/-- Keys of a JSON object node (empty for other nodes). -/
def objKeys : Json → List String
  | Json.obj fs => fs.map Prod.fst
  | _ => []

/-- Fields of a JSON object node (empty for other nodes). -/
def objFields : Json → List (String × Json)
  | Json.obj fs => fs
  | _ => []

/-- Concrete environment in which the first HEAD call fails and every
later external call succeeds; the fetch always returns a fresh png body.
Different encoders tag their output with distinct leading bytes. -/
def envHeadOnce : Env where
  maxAttempts := 2
  fetch := fun _ _ _ => FetchResp.respOk none none (some "image/png") [7]
  encodeJpeg := fun b => Except.ok (1 :: b)
  encodePng := fun b => Except.ok (2 :: b)
  encodeWebp := fun b => Except.ok (3 :: b)
  encodeGif := fun b => Except.ok (4 :: b)
  sha1 := fun _ => "h"
  headR2 := fun idx _ => if idx = 1 then Except.error "boom" else Except.ok true
  putR2 := fun _ _ => Except.ok ()

/-- Concrete environment whose fetch always fails with HTTP 500. -/
def envFail : Env where
  maxAttempts := 3
  fetch := fun _ _ _ => FetchResp.respStatus 500
  encodeJpeg := fun b => Except.ok (1 :: b)
  encodePng := fun b => Except.ok (2 :: b)
  encodeWebp := fun b => Except.ok (3 :: b)
  encodeGif := fun b => Except.ok (4 :: b)
  sha1 := fun _ => "h"
  headR2 := fun _ _ => Except.ok true
  putR2 := fun _ _ => Except.ok ()

/-- Concrete environment whose fetch always returns 304 Not Modified. -/
def env304 : Env where
  maxAttempts := 3
  fetch := fun _ _ _ => FetchResp.resp304
  encodeJpeg := fun b => Except.ok (1 :: b)
  encodePng := fun b => Except.ok (2 :: b)
  encodeWebp := fun b => Except.ok (3 :: b)
  encodeGif := fun b => Except.ok (4 :: b)
  sha1 := fun _ => "h"
  headR2 := fun _ _ => Except.ok true
  putR2 := fun _ _ => Except.ok ()

/-- Previous manifest record holding validators and a stored key. -/
def recFull : ManifestRecord :=
  ⟨some "e1", some "lm1", some "img/k1.png", some "image/png"⟩

/-- Previous manifest record holding validators but no stored key. -/
def recNoKey : ManifestRecord := ⟨some "e1", some "lm1", none, none⟩

/-! Helper lemmas about the attempt loop. -/

/-- Unconditional requests carry no conditional headers. -/
theorem condHeaders_false (m : ManifestRecord) : condHeaders false m = [] := rfl

/-- The headers component of one attempt is always the conditional header
list computed from the conditional flag and prevMeta. -/
theorem doAttempt_headers (env : Env) (url : String) (pm : ManifestRecord)
    (idx : Nat) (cond : Bool) :
    (doAttempt env url pm idx cond).1 = condHeaders cond pm := by
  unfold doAttempt
  rcases hf : env.fetch url idx (condHeaders cond pm) with _ | ⟨et, lm, ct, body⟩ | s | msg <;>
    simp [hf]
  rcases pm.r2Key with _ | k
  · simp
  · by_cases hk : k = "" <;> simp [hk]

/-- Every attempt logged by a loop started in unconditional mode carries an
empty header list: once conditional mode is dropped it never returns. -/
theorem runLoop_headers_false (env : Env) (url : String) (pm : ManifestRecord) :
    ∀ fuel idx, ∀ l ∈ (runLoop env url pm fuel idx false).logs, l.headers = [] := by
  intro fuel
  induction fuel with
  | zero => intro idx l hl; simp [runLoop] at hl
  | succ n ih =>
    intro idx l hl
    rcases hstep : doAttempt env url pm idx false with ⟨hdrs, out, eff⟩
    have hh : hdrs = [] := by
      have hd := doAttempt_headers env url pm idx false
      rw [hstep] at hd
      simpa [condHeaders] using hd
    subst hh
    cases out with
    | fresh k rec up =>
      simp [runLoop, hstep] at hl
      simp [hl]
    | reuse k =>
      simp [runLoop, hstep] at hl
      simp [hl]
    | retry304 =>
      simp [runLoop, hstep] at hl
      rcases hl with hl | hl
      · simp [hl]
      · exact ih (idx + 1) l hl
    | failed msg =>
      by_cases hn : n = 0
      · subst hn
        simp [runLoop, hstep] at hl
        simp [hl]
      · simp [runLoop, hstep, hn] at hl
        rcases hl with hl | hl
        · simp [hl]
        · exact ih (idx + 1) l hl

/-- A loop with at least one permitted attempt logs at least one attempt. -/
theorem runLoop_logs_nonempty (env : Env) (url : String) (pm : ManifestRecord)
    (fuel idx : Nat) (cond : Bool) (h : 0 < fuel) :
    (runLoop env url pm fuel idx cond).logs ≠ [] := by
  cases fuel with
  | zero => omega
  | succ n =>
    rcases hstep : doAttempt env url pm idx cond with ⟨hdrs, out, eff⟩
    cases out with
    | fresh k rec up => simp [runLoop, hstep]
    | reuse k => simp [runLoop, hstep]
    | retry304 => simp [runLoop, hstep]
    | failed msg =>
      by_cases hn : n = 0 <;> simp [runLoop, hstep, hn]

/-- Under a fetch that throws, one attempt produces a failed outcome with no
external calls. -/
theorem doAttempt_of_fail (env : Env) (url : String) (pm : ManifestRecord)
    (idx : Nat) (cond : Bool)
    (h : isFailResp (env.fetch url idx (condHeaders cond pm)) = true) :
    ∃ msg, doAttempt env url pm idx cond = (condHeaders cond pm, AttemptOutcome.failed msg, noEffects) := by
  unfold doAttempt
  rcases hf : env.fetch url idx (condHeaders cond pm) with _ | ⟨et, lm, ct, body⟩ | s | msg <;>
    rw [hf] at h <;> simp [isFailResp] at h <;> simp [hf]

/-- Under a 304 response and a prevMeta without a truthy stored key, one
attempt produces retry304 with no external calls. -/
theorem doAttempt_of_304_nokey (env : Env) (url : String) (pm : ManifestRecord)
    (idx : Nat) (cond : Bool)
    (hf : env.fetch url idx (condHeaders cond pm) = FetchResp.resp304)
    (hk : optTruthy pm.r2Key = false) :
    doAttempt env url pm idx cond = (condHeaders cond pm, AttemptOutcome.retry304, noEffects) := by
  unfold doAttempt
  rcases hr : pm.r2Key with _ | k
  · simp [hf, hr]
  · rw [hr] at hk
    simp [optTruthy] at hk
    simp [hf, hr, hk]

/-- Under a 304 response and a prevMeta with a truthy stored key, one
attempt produces reuse of that key with no external calls. -/
theorem doAttempt_of_304_key (env : Env) (url : String) (pm : ManifestRecord)
    (idx : Nat) (cond : Bool) (k : String)
    (hf : env.fetch url idx (condHeaders cond pm) = FetchResp.resp304)
    (hr : pm.r2Key = some k) (hk : k ≠ "") :
    doAttempt env url pm idx cond = (condHeaders cond pm, AttemptOutcome.reuse k, noEffects) := by
  unfold doAttempt
  simp [hf, hr, hk]

/-- A fetch that fails on every attempt exhausts the loop with an error. -/
theorem runLoop_allFail (env : Env) (url : String) (pm : ManifestRecord)
    (h : AlwaysFailFetch env url) :
    ∀ fuel idx cond, 0 < fuel →
      ∃ msg, (runLoop env url pm fuel idx cond).fin = LoopFinal.exhaustedError msg := by
  intro fuel
  induction fuel with
  | zero => intro idx cond hpos; omega
  | succ n ih =>
    intro idx cond _
    obtain ⟨msg, hstep⟩ := doAttempt_of_fail env url pm idx cond (h idx _)
    by_cases hn : n = 0
    · subst hn
      exact ⟨msg, by simp [runLoop, hstep]⟩
    · obtain ⟨msg2, hrest⟩ := ih (idx + 1) false (by omega)
      exact ⟨msg2, by simp [runLoop, hstep, hn, hrest]⟩

/-- A fetch that answers 304 on every attempt, with no stored key to back
it, exhausts the loop cleanly: no error is recorded, no external call is
made, and every logged attempt is a retry304. -/
theorem runLoop_all304 (env : Env) (url : String) (pm : ManifestRecord)
    (h : All304Fetch env url) (hk : optTruthy pm.r2Key = false) :
    ∀ fuel idx cond,
      (runLoop env url pm fuel idx cond).fin = LoopFinal.exhaustedClean ∧
      (runLoop env url pm fuel idx cond).eff = noEffects ∧
      ∀ l ∈ (runLoop env url pm fuel idx cond).logs, l.outcome = AttemptOutcome.retry304 := by
  intro fuel
  induction fuel with
  | zero => intro idx cond; refine ⟨rfl, rfl, ?_⟩; intro l hl; simp [runLoop] at hl
  | succ n ih =>
    intro idx cond
    have hstep := doAttempt_of_304_nokey env url pm idx cond (h idx _) hk
    obtain ⟨hfin, heff, hlogs⟩ := ih (idx + 1) false
    refine ⟨?_, ?_, ?_⟩
    · simp [runLoop, hstep, hfin]
    · simp [runLoop, hstep, heff, effAppend, noEffects]
    · intro l hl
      simp [runLoop, hstep] at hl
      rcases hl with hl | hl
      · simp [hl]
      · exact hlogs l hl

/-- Consequences at the URL level of an exhausted loop with an error: the
skip counter alone is incremented, nothing resolves, nothing is written to
the manifest, and a warning naming the URL and reason is produced. -/
theorem runUrl_of_error (env : Env) (url pb : String) (pm : ManifestRecord) (msg : String)
    (h : (runLoop env url pm env.maxAttempts 1
      (optTruthy pm.etag || optTruthy pm.lastModified)).fin = LoopFinal.exhaustedError msg) :
    (runUrl env url pm pb).statsDelta = ⟨0, 0, 0, 1⟩ ∧
    (runUrl env url pm pb).resolvedUrl = none ∧
    (runUrl env url pm pb).manifestWrite = none ∧
    (runUrl env url pm pb).warned = some ("Skip " ++ url ++ ": " ++ msg) := by
  simp [runUrl, h]

/-- Consequences at the URL level of a clean exhausted loop: no counter
moves, nothing resolves, nothing is written, and no warning is printed. -/
theorem runUrl_of_clean (env : Env) (url pb : String) (pm : ManifestRecord)
    (h : (runLoop env url pm env.maxAttempts 1
      (optTruthy pm.etag || optTruthy pm.lastModified)).fin = LoopFinal.exhaustedClean) :
    (runUrl env url pm pb).statsDelta = zeroStats ∧
    (runUrl env url pm pb).resolvedUrl = none ∧
    (runUrl env url pm pb).manifestWrite = none ∧
    (runUrl env url pm pb).warned = none ∧
    (runUrl env url pm pb).fin = LoopFinal.exhaustedClean := by
  simp [runUrl, h]

/-- Consequences at the URL level of a 304 reuse: the reused counter alone
is incremented, the prior public URL is pushed, and a copy of prevMeta is
carried into the next manifest. -/
theorem runUrl_of_304 (env : Env) (url pb : String) (pm : ManifestRecord) (k : String)
    (h : (runLoop env url pm env.maxAttempts 1
      (optTruthy pm.etag || optTruthy pm.lastModified)).fin = LoopFinal.resolved304 k) :
    (runUrl env url pm pb).statsDelta = ⟨0, 1, 0, 0⟩ ∧
    (runUrl env url pm pb).resolvedUrl = some (pb ++ "/" ++ k) ∧
    (runUrl env url pm pb).manifestWrite = some pm ∧
    (runUrl env url pm pb).warned = none := by
  simp [runUrl, h]

/-- Loop equation: a failed attempt on the last permitted attempt breaks
without sleeping and surfaces the error. -/
theorem runLoop_fail_last (env : Env) (url : String) (pm : ManifestRecord)
    (idx : Nat) (cond : Bool) (hdrs : List (String × String)) (msg : String) (eff : Effects)
    (h : doAttempt env url pm idx cond = (hdrs, AttemptOutcome.failed msg, eff)) :
    runLoop env url pm 1 idx cond =
      ⟨[⟨idx, hdrs, AttemptOutcome.failed msg, none⟩], eff, LoopFinal.exhaustedError msg⟩ := by
  simp [runLoop, h]

/-- Loop equation: a failed attempt with attempts remaining sleeps the
exponential backoff and continues unconditionally. -/
theorem runLoop_fail_more (env : Env) (url : String) (pm : ManifestRecord)
    (fuel idx : Nat) (cond : Bool) (hdrs : List (String × String)) (msg : String) (eff : Effects)
    (h : doAttempt env url pm idx cond = (hdrs, AttemptOutcome.failed msg, eff))
    (hfuel : fuel ≠ 0) :
    runLoop env url pm (fuel + 1) idx cond =
      ⟨⟨idx, hdrs, AttemptOutcome.failed msg, some (200 * 2 ^ (idx - 1))⟩ ::
         (runLoop env url pm fuel (idx + 1) false).logs,
       effAppend eff (runLoop env url pm fuel (idx + 1) false).eff,
       (runLoop env url pm fuel (idx + 1) false).fin⟩ := by
  simp [runLoop, h, hfuel]

/-- Loop equation: a reuse attempt breaks the loop at once. -/
theorem runLoop_reuse (env : Env) (url : String) (pm : ManifestRecord)
    (fuel idx : Nat) (cond : Bool) (hdrs : List (String × String)) (k : String) (eff : Effects)
    (h : doAttempt env url pm idx cond = (hdrs, AttemptOutcome.reuse k, eff)) :
    runLoop env url pm (fuel + 1) idx cond =
      ⟨[⟨idx, hdrs, AttemptOutcome.reuse k, none⟩], eff, LoopFinal.resolved304 k⟩ := by
  simp [runLoop, h]

/-- Loop equation: a retry304 attempt continues unconditionally with no
sleep and no recorded error. -/
theorem runLoop_retry (env : Env) (url : String) (pm : ManifestRecord)
    (fuel idx : Nat) (cond : Bool) (hdrs : List (String × String)) (eff : Effects)
    (h : doAttempt env url pm idx cond = (hdrs, AttemptOutcome.retry304, eff)) :
    runLoop env url pm (fuel + 1) idx cond =
      ⟨⟨idx, hdrs, AttemptOutcome.retry304, none⟩ ::
         (runLoop env url pm fuel (idx + 1) false).logs,
       effAppend eff (runLoop env url pm fuel (idx + 1) false).eff,
       (runLoop env url pm fuel (idx + 1) false).fin⟩ := by
  simp [runLoop, h]

/-- Loop equation: a completed fresh attempt breaks the loop at once. -/
theorem runLoop_fresh (env : Env) (url : String) (pm : ManifestRecord)
    (fuel idx : Nat) (cond : Bool) (hdrs : List (String × String)) (k : String)
    (rec : ManifestRecord) (up : Bool) (eff : Effects)
    (h : doAttempt env url pm idx cond = (hdrs, AttemptOutcome.fresh k rec up, eff)) :
    runLoop env url pm (fuel + 1) idx cond =
      ⟨[⟨idx, hdrs, AttemptOutcome.fresh k rec up, none⟩], eff,
       LoopFinal.resolvedFresh k rec up⟩ := by
  simp [runLoop, h]

/-- When the next manifest does not yet hold a truthy stored key for this
URL, the step runs the attempt loop and folds its outcome into the state. -/
theorem processUrlStep_noShort (env : Env) (pb : String)
    (prevM : List (String × ManifestRecord)) (st : OfferState) (u : String)
    (h : optTruthy ((lookupM st.nextManifest u).bind ManifestRecord.r2Key) = false) :
    processUrlStep env pb prevM st u =
      ⟨(match (runUrl env u (prevMetaOf st.nextManifest prevM u) pb).manifestWrite with
        | some rec => setM st.nextManifest u rec
        | none => st.nextManifest),
       addStats st.stats (runUrl env u (prevMetaOf st.nextManifest prevM u) pb).statsDelta,
       st.resolved ++ (match (runUrl env u (prevMetaOf st.nextManifest prevM u) pb).resolvedUrl with
        | some x => [x]
        | none => []),
       st.trace ++ [(u, some (runUrl env u (prevMetaOf st.nextManifest prevM u) pb))]⟩ := by
  unfold processUrlStep
  rcases hl : lookupM st.nextManifest u with _ | r
  · simp [hl]
  · have h2 : optTruthy r.r2Key = false := by
      rw [hl] at h
      simpa using h
    rcases hr : r.r2Key with _ | k
    · simp [hl, hr]
    · rw [hr] at h2
      simp [optTruthy] at h2
      simp [hl, hr, h2]

/-- Every step appends exactly one element, keyed by its URL, to the trace. -/
theorem processUrlStep_trace (env : Env) (pb : String)
    (prevM : List (String × ManifestRecord)) (st : OfferState) (u : String) :
    (processUrlStep env pb prevM st u).trace.map Prod.fst =
      st.trace.map Prod.fst ++ [u] := by
  unfold processUrlStep
  rcases hl : lookupM st.nextManifest u with _ | r
  · simp [hl]
  · rcases hr : r.r2Key with _ | k
    · simp [hl, hr]
    · by_cases hk : k = "" <;> simp [hl, hr, hk]

/-- The URL loop visits exactly the unique URL list, in order. -/
theorem foldl_trace (env : Env) (pb : String)
    (prevM : List (String × ManifestRecord)) :
    ∀ (l : List String) (st : OfferState),
      ((l.foldl (processUrlStep env pb prevM) st).trace).map Prod.fst =
        st.trace.map Prod.fst ++ l := by
  intro l
  induction l with
  | nil => intro st; simp
  | cons x xs ih =>
    intro st
    have hx := processUrlStep_trace env pb prevM st x
    simp only [List.foldl_cons]
    rw [ih (processUrlStep env pb prevM st x), hx]
    simp

/-- Membership in the deduplicated list implies membership in the source. -/
theorem dedupGo_subset : ∀ (l seen : List String) (y : String), y ∈ dedupGo seen l → y ∈ l := by
  intro l
  induction l with
  | nil => intro seen y hy; simp [dedupGo] at hy
  | cons x xs ih =>
    intro seen y hy
    rw [dedupGo] at hy
    by_cases hc : seen.contains x = true
    · rw [if_pos hc] at hy
      exact List.mem_cons_of_mem x (ih seen y hy)
    · rw [if_neg hc] at hy
      rcases List.mem_cons.mp hy with hyx | hy2
      · exact hyx ▸ List.mem_cons_self x xs
      · exact List.mem_cons_of_mem x (ih (x :: seen) y hy2)

/-- Elements already seen never reappear in the deduplicated output. -/
theorem dedupGo_not_seen : ∀ (l seen : List String) (y : String),
    y ∈ dedupGo seen l → seen.contains y = false := by
  intro l
  induction l with
  | nil => intro seen y hy; simp [dedupGo] at hy
  | cons x xs ih =>
    intro seen y hy
    rw [dedupGo] at hy
    by_cases hc : seen.contains x = true
    · rw [if_pos hc] at hy
      exact ih seen y hy
    · rw [if_neg hc] at hy
      rcases List.mem_cons.mp hy with hyx | hy2
      · subst hyx
        simpa using hc
      · have := ih (x :: seen) y hy2
        simp at this
        simpa using this.2

/-- First-occurrence deduplication produces a list without duplicates. -/
theorem dedupFirst_nodup (l : List String) : (dedupFirst l).Nodup := by
  unfold dedupFirst
  suffices h : ∀ seen : List String, (dedupGo seen l).Nodup from h []
  induction l with
  | nil => intro seen; simp [dedupGo]
  | cons x xs ih =>
    intro seen
    rw [dedupGo]
    by_cases hc : seen.contains x = true
    · rw [if_pos hc]
      exact ih seen
    · rw [if_neg hc]
      refine List.nodup_cons.mpr ⟨?_, ih (x :: seen)⟩
      intro hx
      have := dedupGo_not_seen xs (x :: seen) x hx
      simp at this

/-- Membership in the deduplicated list implies membership in the source. -/
theorem dedupFirst_subset (l : List String) (y : String) (h : y ∈ dedupFirst l) : y ∈ l :=
  dedupGo_subset l [] y h

/-- Under a 2xx response, one attempt runs the post-fetch pipeline on the
normalised content type and the cleaned validators. -/
theorem doAttempt_of_ok (env : Env) (url : String) (pm : ManifestRecord)
    (idx : Nat) (cond : Bool) (et lm ct : Option String) (body : List Nat)
    (hf : env.fetch url idx (condHeaders cond pm) = FetchResp.respOk et lm ct body) :
    doAttempt env url pm idx cond =
      (condHeaders cond pm,
       (doFresh env idx (orUndef et) (orUndef lm) (normaliseMime ct) body).1,
       (doFresh env idx (orUndef et) (orUndef lm) (normaliseMime ct) body).2) := by
  unfold doAttempt
  simp [hf]

/-! Claim C7. -/

/-- C7 counterexample: with R2_CONCURRENCY configured as 0 (a value below
1), CONCURRENCY evaluates to the default 4, not 1, because 0 is falsy in
the expression Number(x) or 4; with 10 tasks the effective worker count is
then 4 where the claim predicts min(1, 10) = 1. -/
theorem claim_C7_counterexample :
    concurrencyValue (some 0) = 4 ∧
    workerCount (concurrencyValue (some 0)) 10 = 4 ∧
    workerCount (concurrencyValue (some 0)) 10 ≠ min (1 : Int) 10 := by
  refine ⟨by decide, by decide, by decide⟩

/-- C7 amended: the effective worker count equals min(CONCURRENCY, task
count), where CONCURRENCY is the configured value when it is at least 1,
the default 4 when the variable is unset, non-numeric or exactly 0, and 1
for negative configured values. -/
theorem claim_C7 :
    (∀ (raw : Option Int) (n : Nat),
      workerCount (concurrencyValue raw) n = min (concurrencyValue raw) (n : Int)) ∧
    (∀ c : Int, c < 0 → concurrencyValue (some c) = 1) ∧
    concurrencyValue (some 0) = 4 ∧
    concurrencyValue none = 4 ∧
    (∀ c : Int, 1 ≤ c → concurrencyValue (some c) = c) := by
  refine ⟨fun raw n => rfl, ?_, by decide, by decide, ?_⟩
  · intro c hc
    have hc0 : ¬ c = 0 := by omega
    simp only [concurrencyValue, numberOr, hc0, if_false]
    rw [max_eq_left (by omega)]
  · intro c hc
    have hc0 : ¬ c = 0 := by omega
    simp only [concurrencyValue, numberOr, hc0, if_false]
    rw [max_eq_right (by omega)]

/-- C7 witness: the amended statement evaluated at concrete inputs. -/
theorem claim_C7_witness :
    workerCount (concurrencyValue (some 2)) 5 = min (concurrencyValue (some 2)) 5 ∧
    concurrencyValue (some (-3)) = 1 ∧
    concurrencyValue (some 7) = 7 :=
  ⟨claim_C7.1 (some 2) 5, claim_C7.2.1 (-3) (by decide), claim_C7.2.2.2.2 7 (by decide)⟩

/-! Claim C9. -/

/-- Unfolding of normaliseMime on a non-empty header. -/
theorem normaliseMime_some (s : String) (hs : s ≠ "") :
    normaliseMime (some s) =
      if SUPPORTED_MIME.contains (mimeClean s) then mimeClean s
      else if strStarts (mimeClean s) "image/" then mimeClean s
      else "image/jpeg" := by
  simp [normaliseMime, hs]

/-- C9 counterexample: the Content-Type image/tiff is not in the supported
set, yet normaliseMime returns it unchanged instead of a member of the
supported set or the default, because any type starting with image/ is
passed through. -/
theorem claim_C9_counterexample :
    normaliseMime (some "image/tiff") = "image/tiff" ∧
    SUPPORTED_MIME.contains "image/tiff" = false ∧
    "image/tiff" ≠ "image/jpeg" := by
  refine ⟨by decide, by decide, by decide⟩

/-- C9 amended: the resolved media type is the cleaned Content-Type value
(before the first semicolon, trimmed, lowercased) whenever that value is a
supported type or any type starting with image/; a missing or empty header
or a non-image type falls back to image/jpeg. The result therefore always
starts with image/ but need not belong to the supported set. -/
theorem claim_C9 :
    normaliseMime none = "image/jpeg" ∧
    normaliseMime (some "") = "image/jpeg" ∧
    (∀ s : String, s ≠ "" → SUPPORTED_MIME.contains (mimeClean s) = true →
      normaliseMime (some s) = mimeClean s) ∧
    (∀ s : String, s ≠ "" → SUPPORTED_MIME.contains (mimeClean s) = false →
      strStarts (mimeClean s) "image/" = true → normaliseMime (some s) = mimeClean s) ∧
    (∀ s : String, s ≠ "" → SUPPORTED_MIME.contains (mimeClean s) = false →
      strStarts (mimeClean s) "image/" = false → normaliseMime (some s) = "image/jpeg") ∧
    (∀ ct : Option String, strStarts (normaliseMime ct) "image/" = true) := by
  refine ⟨rfl, by decide, ?_, ?_, ?_, ?_⟩
  · intro s hs hc
    rw [normaliseMime_some s hs, hc]
    simp
  · intro s hs hc hp
    rw [normaliseMime_some s hs, hc, hp]
    simp
  · intro s hs hc hp
    rw [normaliseMime_some s hs, hc, hp]
    simp
  · intro ct
    rcases ct with _ | s
    · decide
    · by_cases hs : s = ""
      · subst hs; decide
      · rw [normaliseMime_some s hs]
        by_cases hc : SUPPORTED_MIME.contains (mimeClean s) = true
        · rw [hc]
          simp only [if_true]
          have hmem : mimeClean s ∈ SUPPORTED_MIME := by simpa using hc
          simp [SUPPORTED_MIME, MIME_TO_EXT] at hmem
          rcases hmem with h | h | h | h | h <;> rw [h] <;> decide
        · have hc2 : SUPPORTED_MIME.contains (mimeClean s) = false := by
            cases hb : SUPPORTED_MIME.contains (mimeClean s)
            · rfl
            · exact absurd hb hc
          rw [hc2]
          simp only [Bool.false_eq_true, if_false]
          by_cases hp : strStarts (mimeClean s) "image/" = true
          · rw [hp]
            simpa using hp
          · have hp2 : strStarts (mimeClean s) "image/" = false := by
              cases hb : strStarts (mimeClean s) "image/"
              · rfl
              · exact absurd hb hp
            rw [hp2]
            simp only [Bool.false_eq_true, if_false]
            decide

/-- C9 witness: the amended statement evaluated at concrete headers. -/
theorem claim_C9_witness :
    normaliseMime (some " image/PNG; charset=utf-8") = mimeClean " image/PNG; charset=utf-8" ∧
    normaliseMime (some "image/tiff") = mimeClean "image/tiff" ∧
    normaliseMime (some "text/html") = "image/jpeg" ∧
    strStarts (normaliseMime (some "application/json")) "image/" = true :=
  ⟨claim_C9.2.2.1 " image/PNG; charset=utf-8" (by decide) (by decide),
   claim_C9.2.2.2.1 "image/tiff" (by decide) (by decide) (by decide),
   claim_C9.2.2.2.2.1 "text/html" (by decide) (by decide) (by decide),
   claim_C9.2.2.2.2.2 (some "application/json")⟩

/-! Claim C5. -/

/-- C5: a URL that fails on every attempt up to the budget increments the
skipped counter exactly once, writes no manifest record and does not appear
in the resolved list; when it was the only URL of its entry, the entry
produces no output element at all. -/
theorem claim_C5 (env : Env) (pb : String)
    (prevM nm0 : List (String × ManifestRecord)) (stats0 : Stats)
    (entry : Entry) (u : String)
    (hid : entry.offerId ≠ "")
    (hu : uniqueUrls entry.urls = [u])
    (hshort : optTruthy ((lookupM nm0 u).bind ManifestRecord.r2Key) = false)
    (hfail : AlwaysFailFetch env u)
    (hmax : 0 < env.maxAttempts) :
    (processOffer env pb prevM nm0 stats0 entry).1 = none ∧
    (processOffer env pb prevM nm0 stats0 entry).2.stats =
      ⟨stats0.uploaded, stats0.reused304, stats0.reusedExisting, stats0.skipped + 1⟩ ∧
    (processOffer env pb prevM nm0 stats0 entry).2.nextManifest = nm0 ∧
    (processOffer env pb prevM nm0 stats0 entry).2.resolved = [] ∧
    (runUrl env u (prevMetaOf nm0 prevM u) pb).statsDelta.skipped = 1 ∧
    (runUrl env u (prevMetaOf nm0 prevM u) pb).manifestWrite = none ∧
    (runUrl env u (prevMetaOf nm0 prevM u) pb).resolvedUrl = none := by
  have hurls : ¬ entry.urls = [] := by
    intro h
    rw [h] at hu
    have h2 : ([] : List String) = [u] := hu
    simp at h2
  obtain ⟨msg, hfin⟩ := runLoop_allFail env u (prevMetaOf nm0 prevM u) hfail
    env.maxAttempts 1
    (optTruthy (prevMetaOf nm0 prevM u).etag || optTruthy (prevMetaOf nm0 prevM u).lastModified)
    hmax
  obtain ⟨hsd, hru, hmw, _⟩ := runUrl_of_error env u pb (prevMetaOf nm0 prevM u) msg hfin
  have hstep := processUrlStep_noShort env pb prevM ⟨nm0, stats0, [], []⟩ u hshort
  rw [hmw, hru] at hstep
  unfold processOffer
  simp only [hid, if_false, hurls, hu]
  have hne : ¬ ([u] = ([] : List String)) := by simp
  simp only [hne, if_false, List.foldl_cons, List.foldl_nil]
  rw [hstep]
  simp [hsd, addStats, hru, hmw]

/-- C5 witness: a single-URL entry whose fetch always returns HTTP 500 is
skipped once, leaves the manifest untouched and yields no output element. -/
theorem claim_C5_witness :
    (processOffer envFail "pb" [] [] zeroStats ⟨"A1", ["u1"]⟩).1 = none ∧
    (processOffer envFail "pb" [] [] zeroStats ⟨"A1", ["u1"]⟩).2.stats = ⟨0, 0, 0, 1⟩ ∧
    (processOffer envFail "pb" [] [] zeroStats ⟨"A1", ["u1"]⟩).2.nextManifest = [] ∧
    (processOffer envFail "pb" [] [] zeroStats ⟨"A1", ["u1"]⟩).2.resolved = [] ∧
    (runUrl envFail "u1" (prevMetaOf [] [] "u1") "pb").statsDelta.skipped = 1 ∧
    (runUrl envFail "u1" (prevMetaOf [] [] "u1") "pb").manifestWrite = none ∧
    (runUrl envFail "u1" (prevMetaOf [] [] "u1") "pb").resolvedUrl = none :=
  claim_C5 envFail "pb" [] [] zeroStats ⟨"A1", ["u1"]⟩ "u1"
    (by decide) (by decide) (by decide)
    (fun idx hdrs => rfl) (by decide)

/-! Claim C10. -/

/-- C10: when every attempt returns 304 and no stored key exists in either
the next manifest or the previous manifest for this URL, the attempt loop
exits cleanly with no recorded error; the URL adds nothing to the resolved
list, writes no manifest record, does not move the skipped counter, and
logs no warning. -/
theorem claim_C10 (env : Env) (pb : String)
    (prevM : List (String × ManifestRecord)) (st : OfferState) (u : String)
    (hnext : optTruthy ((lookupM st.nextManifest u).bind ManifestRecord.r2Key) = false)
    (hprev : optTruthy ((lookupM prevM u).bind ManifestRecord.r2Key) = false)
    (h304 : All304Fetch env u) :
    (processUrlStep env pb prevM st u).resolved = st.resolved ∧
    (processUrlStep env pb prevM st u).stats = st.stats ∧
    (processUrlStep env pb prevM st u).nextManifest = st.nextManifest ∧
    (runUrl env u (prevMetaOf st.nextManifest prevM u) pb).fin = LoopFinal.exhaustedClean ∧
    (runUrl env u (prevMetaOf st.nextManifest prevM u) pb).warned = none ∧
    (runUrl env u (prevMetaOf st.nextManifest prevM u) pb).statsDelta = zeroStats ∧
    (runUrl env u (prevMetaOf st.nextManifest prevM u) pb).manifestWrite = none ∧
    (runUrl env u (prevMetaOf st.nextManifest prevM u) pb).resolvedUrl = none := by
  have hkey : optTruthy (prevMetaOf st.nextManifest prevM u).r2Key = false := by
    unfold prevMetaOf
    rcases hn : lookupM st.nextManifest u with _ | r
    · rcases hp : lookupM prevM u with _ | r2
      · simp [Option.orElse, emptyRecord, optTruthy]
      · rw [hp] at hprev
        simpa [Option.orElse] using hprev
    · rw [hn] at hnext
      simpa [Option.orElse] using hnext
  have hclean := (runLoop_all304 env u (prevMetaOf st.nextManifest prevM u) h304 hkey
    env.maxAttempts 1
    (optTruthy (prevMetaOf st.nextManifest prevM u).etag ||
      optTruthy (prevMetaOf st.nextManifest prevM u).lastModified)).1
  obtain ⟨hsd, hru, hmw, hw, hfin⟩ :=
    runUrl_of_clean env u pb (prevMetaOf st.nextManifest prevM u) hclean
  have hstep := processUrlStep_noShort env pb prevM st u hnext
  rw [hmw, hru] at hstep
  rw [hstep]
  simp [hsd, addStats, zeroStats, hru, hmw, hw, hfin]

/-- C10 witness: with an always-304 server and no stored key anywhere, the
URL vanishes silently: no resolution, no record, no skip, no warning. -/
theorem claim_C10_witness :
    (processUrlStep env304 "pb" [] ⟨[], zeroStats, [], []⟩ "u1").resolved = [] ∧
    (processUrlStep env304 "pb" [] ⟨[], zeroStats, [], []⟩ "u1").stats = zeroStats ∧
    (processUrlStep env304 "pb" [] ⟨[], zeroStats, [], []⟩ "u1").nextManifest = [] ∧
    (runUrl env304 "u1" (prevMetaOf [] [] "u1") "pb").fin = LoopFinal.exhaustedClean ∧
    (runUrl env304 "u1" (prevMetaOf [] [] "u1") "pb").warned = none ∧
    (runUrl env304 "u1" (prevMetaOf [] [] "u1") "pb").statsDelta = zeroStats ∧
    (runUrl env304 "u1" (prevMetaOf [] [] "u1") "pb").manifestWrite = none ∧
    (runUrl env304 "u1" (prevMetaOf [] [] "u1") "pb").resolvedUrl = none :=
  claim_C10 env304 "pb" [] ⟨[], zeroStats, [], []⟩ "u1"
    (by decide) (by decide) (fun idx hdrs => rfl)

/-! Claim C4. -/

/-- C4: a failed attempt numbered idx that is not the last permitted one
(at least one unit of fuel remains) is followed by a sleep of exactly
200 times 2 to the power (idx - 1) milliseconds, recorded on its log
entry, and every attempt issued after a failure carries no conditional
headers. -/
theorem claim_C4 (env : Env) (url : String) (pm : ManifestRecord)
    (fuel idx : Nat) (cond : Bool) (hdrs : List (String × String))
    (msg : String) (eff : Effects)
    (h : doAttempt env url pm idx cond = (hdrs, AttemptOutcome.failed msg, eff)) :
    (runLoop env url pm (fuel + 2) idx cond).logs =
      ⟨idx, hdrs, AttemptOutcome.failed msg, some (200 * 2 ^ (idx - 1))⟩ ::
        (runLoop env url pm (fuel + 1) (idx + 1) false).logs ∧
    (∀ l ∈ (runLoop env url pm (fuel + 1) (idx + 1) false).logs, l.headers = []) ∧
    (runLoop env url pm (fuel + 1) (idx + 1) false).logs ≠ [] := by
  have heq := runLoop_fail_more env url pm (fuel + 1) idx cond hdrs msg eff h (by omega)
  refine ⟨?_, ?_, ?_⟩
  · rw [heq]
  · exact runLoop_headers_false env url pm (fuel + 1) (idx + 1)
  · exact runLoop_logs_nonempty env url pm (fuel + 1) (idx + 1) false (by omega)

/-- C4 witness: a first attempt failing with HTTP 500 sleeps 200 ms and is
followed by unconditional attempts. -/
theorem claim_C4_witness :
    (runLoop envFail "u" emptyRecord 3 1 true).logs =
      ⟨1, [], AttemptOutcome.failed "HTTP 500", some 200⟩ ::
        (runLoop envFail "u" emptyRecord 2 2 false).logs ∧
    (∀ l ∈ (runLoop envFail "u" emptyRecord 2 2 false).logs, l.headers = []) ∧
    (runLoop envFail "u" emptyRecord 2 2 false).logs ≠ [] :=
  claim_C4 envFail "u" emptyRecord 1 1 true [] "HTTP 500" noEffects (by decide)

/-! Claim C1. -/

/-- C1 counterexample: in envHeadOnce the first fetch succeeds with a 2xx
png response, then the store existence check throws, yet the loop performs
a second fetch attempt (two logged attempts with a backoff sleep on the
first) and the skipped counter remains 0 because the second attempt
resolves the URL; this contradicts the claim that a post-fetch failure is
terminal for the URL with no further fetch attempt and a skip increment. -/
theorem claim_C1_counterexample :
    envHeadOnce.fetch "u" 1 (condHeaders false emptyRecord) =
      FetchResp.respOk none none (some "image/png") [7] ∧
    (runUrl envHeadOnce "u" emptyRecord "pb").logs.map AttemptLog.outcome =
      [AttemptOutcome.failed "HEAD failed: boom",
       AttemptOutcome.fresh "img/h.png" ⟨none, none, some "img/h.png", some "image/png"⟩ false] ∧
    (runUrl envHeadOnce "u" emptyRecord "pb").logs.length = 2 ∧
    (runUrl envHeadOnce "u" emptyRecord "pb").logs.map AttemptLog.slept = [some 200, none] ∧
    (runUrl envHeadOnce "u" emptyRecord "pb").statsDelta.skipped = 0 := by
  refine ⟨by decide, by decide, by decide, by decide, by decide⟩

/-- C1 amended: a failure after a successful 2xx fetch (transcode error,
store existence-check error or upload error) is handled by the same retry
loop as a fetch failure: while attempts remain the loop sleeps the backoff
and retries the whole pipeline including a new fetch; only when the budget
is exhausted does the loop surface the error, and then the URL is skipped
exactly once, a warning naming the URL and reason is logged, no record is
written, and processing continues with the next URL. -/
theorem claim_C1 (env : Env) (url : String) (pm : ManifestRecord)
    (idx : Nat) (cond : Bool) (et lm ct : Option String) (body : List Nat) (msg : String)
    (hf : env.fetch url idx (condHeaders cond pm) = FetchResp.respOk et lm ct body)
    (hfail : (doFresh env idx (orUndef et) (orUndef lm) (normaliseMime ct) body).1 =
      AttemptOutcome.failed msg) :
    (∀ fuel, fuel ≠ 0 →
      (runLoop env url pm (fuel + 1) idx cond).logs =
        ⟨idx, condHeaders cond pm, AttemptOutcome.failed msg, some (200 * 2 ^ (idx - 1))⟩ ::
          (runLoop env url pm fuel (idx + 1) false).logs ∧
      (runLoop env url pm fuel (idx + 1) false).logs ≠ []) ∧
    ((runLoop env url pm 1 idx cond).fin = LoopFinal.exhaustedError msg) ∧
    (∀ pb msg2,
      (runLoop env url pm env.maxAttempts 1
        (optTruthy pm.etag || optTruthy pm.lastModified)).fin =
          LoopFinal.exhaustedError msg2 →
      (runUrl env url pm pb).statsDelta = ⟨0, 0, 0, 1⟩ ∧
      (runUrl env url pm pb).resolvedUrl = none ∧
      (runUrl env url pm pb).manifestWrite = none ∧
      (runUrl env url pm pb).warned = some ("Skip " ++ url ++ ": " ++ msg2)) := by
  have hda := doAttempt_of_ok env url pm idx cond et lm ct body hf
  rw [hfail] at hda
  refine ⟨?_, ?_, ?_⟩
  · intro fuel hfz
    have heq := runLoop_fail_more env url pm fuel idx cond (condHeaders cond pm) msg _ hda hfz
    refine ⟨by rw [heq], ?_⟩
    exact runLoop_logs_nonempty env url pm fuel (idx + 1) false (Nat.pos_of_ne_zero hfz)
  · rw [runLoop_fail_last env url pm idx cond (condHeaders cond pm) msg _ hda]
  · intro pb msg2 hfin
    exact runUrl_of_error env url pb pm msg2 hfin

/-- C1 witness: the amended behaviour at a concrete environment where the
store existence check fails after a successful fetch. -/
theorem claim_C1_witness :
    ((runLoop envHeadOnce "u" emptyRecord 2 1 false).logs =
      ⟨1, condHeaders false emptyRecord, AttemptOutcome.failed "HEAD failed: boom", some 200⟩ ::
        (runLoop envHeadOnce "u" emptyRecord 1 2 false).logs ∧
      (runLoop envHeadOnce "u" emptyRecord 1 2 false).logs ≠ []) ∧
    (runLoop envHeadOnce "u" emptyRecord 1 1 false).fin =
      LoopFinal.exhaustedError "HEAD failed: boom" :=
  have h := claim_C1 envHeadOnce "u" emptyRecord 1 false none none (some "image/png") [7]
    "HEAD failed: boom" rfl (by decide)
  ⟨h.1 1 (by decide), h.2.1⟩

/-! Claim C2. -/

/-- C2: with validators present, a 304 yields reuse only when the prior
record has a truthy stored key: then the attempt performs no transcode,
HEAD or PUT, the loop breaks, the whole run increments reusedNotModified,
pushes the prior public URL and carries a copy of the prior record into the
next manifest; when no stored key exists the 304 is not trusted, the
attempt yields retry304, and while attempts remain the request is retried
with no conditional headers. -/
theorem claim_C2 (env : Env) (url pb : String) (pm : ManifestRecord)
    (hv : (optTruthy pm.etag || optTruthy pm.lastModified) = true) :
    (∀ (idx : Nat) (cond : Bool) (k : String),
      pm.r2Key = some k → k ≠ "" →
      env.fetch url idx (condHeaders cond pm) = FetchResp.resp304 →
      doAttempt env url pm idx cond =
        (condHeaders cond pm, AttemptOutcome.reuse k, noEffects) ∧
      ∀ fuel, runLoop env url pm (fuel + 1) idx cond =
        ⟨[⟨idx, condHeaders cond pm, AttemptOutcome.reuse k, none⟩], noEffects,
         LoopFinal.resolved304 k⟩) ∧
    (∀ (k : String), pm.r2Key = some k → k ≠ "" →
      env.fetch url 1 (condHeaders true pm) = FetchResp.resp304 →
      ∀ fuel, env.maxAttempts = fuel + 1 →
      (runUrl env url pm pb).statsDelta = ⟨0, 1, 0, 0⟩ ∧
      (runUrl env url pm pb).resolvedUrl = some (pb ++ "/" ++ k) ∧
      (runUrl env url pm pb).manifestWrite = some pm ∧
      (runUrl env url pm pb).eff.transcodeCalls = [] ∧
      (runUrl env url pm pb).eff.putCalls = []) ∧
    (∀ (idx : Nat) (cond : Bool),
      optTruthy pm.r2Key = false →
      env.fetch url idx (condHeaders cond pm) = FetchResp.resp304 →
      doAttempt env url pm idx cond =
        (condHeaders cond pm, AttemptOutcome.retry304, noEffects) ∧
      ∀ fuel, fuel ≠ 0 →
        (runLoop env url pm (fuel + 1) idx cond).logs =
          ⟨idx, condHeaders cond pm, AttemptOutcome.retry304, none⟩ ::
            (runLoop env url pm fuel (idx + 1) false).logs ∧
        (runLoop env url pm fuel (idx + 1) false).logs ≠ [] ∧
        ∀ l ∈ (runLoop env url pm fuel (idx + 1) false).logs, l.headers = []) := by
  refine ⟨?_, ?_, ?_⟩
  · intro idx cond k hrk hkne hf
    have hda := doAttempt_of_304_key env url pm idx cond k hf hrk hkne
    exact ⟨hda, fun fuel => runLoop_reuse env url pm fuel idx cond _ k _ hda⟩
  · intro k hrk hkne hf1 fuel hmax2
    have hda := doAttempt_of_304_key env url pm 1 true k hf1 hrk hkne
    have hloop := runLoop_reuse env url pm fuel 1 true (condHeaders true pm) k noEffects hda
    rw [← hmax2] at hloop
    refine ⟨?_, ?_, ?_, ?_, ?_⟩ <;>
      simp [runUrl, hv, hloop, noEffects]
  · intro idx cond hnk hf
    have hda := doAttempt_of_304_nokey env url pm idx cond hf hnk
    refine ⟨hda, ?_⟩
    intro fuel hfz
    have hloop := runLoop_retry env url pm fuel idx cond _ _ hda
    refine ⟨by rw [hloop], ?_, ?_⟩
    · exact runLoop_logs_nonempty env url pm fuel (idx + 1) false (Nat.pos_of_ne_zero hfz)
    · exact runLoop_headers_false env url pm fuel (idx + 1)

/-- C2 witness: a 304 against a record with validators and stored key
reuses the key with no transcode or upload; against a record with
validators but no key the attempt is a retry304. -/
theorem claim_C2_witness :
    doAttempt env304 "u" recFull 1 true =
      (condHeaders true recFull, AttemptOutcome.reuse "img/k1.png", noEffects) ∧
    (runUrl env304 "u" recFull "pb").statsDelta = ⟨0, 1, 0, 0⟩ ∧
    (runUrl env304 "u" recFull "pb").resolvedUrl = some ("pb" ++ "/" ++ "img/k1.png") ∧
    (runUrl env304 "u" recFull "pb").manifestWrite = some recFull ∧
    (runUrl env304 "u" recFull "pb").eff.transcodeCalls = [] ∧
    (runUrl env304 "u" recFull "pb").eff.putCalls = [] ∧
    doAttempt env304 "u" recNoKey 1 true =
      (condHeaders true recNoKey, AttemptOutcome.retry304, noEffects) :=
  have h1 := claim_C2 env304 "u" "pb" recFull (by decide)
  have h2 := claim_C2 env304 "u" "pb" recNoKey (by decide)
  have hrun := h1.2.1 "img/k1.png" rfl (by decide) rfl 2 rfl
  ⟨(h1.1 1 true "img/k1.png" rfl (by decide) rfl).1,
   hrun.1, hrun.2.1, hrun.2.2.1, hrun.2.2.2.1, hrun.2.2.2.2,
   (h2.2.2 1 true (by decide) rfl).1⟩

/-! Claim C3. -/

/-- Case analysis of a successful transcode: the output extension, media
type and buffer come from exactly one of the four encoders. -/
theorem resizeBuffer_cases (env : Env) (b : List Nat) (m : String) (p : Processed)
    (h : resizeBuffer env b m = Except.ok p) :
    (p.ext = "jpg" ∧ p.mime = "image/jpeg" ∧ env.encodeJpeg b = Except.ok p.buffer) ∨
    (p.ext = "png" ∧ p.mime = "image/png" ∧ env.encodePng b = Except.ok p.buffer) ∨
    (p.ext = "webp" ∧ p.mime = "image/webp" ∧ env.encodeWebp b = Except.ok p.buffer) ∨
    (p.ext = "gif" ∧ p.mime = "image/gif" ∧ env.encodeGif b = Except.ok p.buffer) := by
  simp only [resizeBuffer] at h
  split at h
  · rcases hx : env.encodePng b with e | b2 <;> rw [hx] at h
    · exact absurd h (by simp)
    · injection h with h2
      subst h2
      exact Or.inr (Or.inl ⟨rfl, rfl, rfl⟩)
  · rcases hx : env.encodeWebp b with e | b2 <;> rw [hx] at h
    · exact absurd h (by simp)
    · injection h with h2
      subst h2
      exact Or.inr (Or.inr (Or.inl ⟨rfl, rfl, rfl⟩))
  · rcases hx : env.encodeGif b with e | b2 <;> rw [hx] at h
    · exact absurd h (by simp)
    · injection h with h2
      subst h2
      exact Or.inr (Or.inr (Or.inr ⟨rfl, rfl, rfl⟩))
  · rcases hx : env.encodeJpeg b with e | b2 <;> rw [hx] at h
    · exact absurd h (by simp)
    · injection h with h2
      subst h2
      exact Or.inl ⟨rfl, rfl, rfl⟩

/-- With format-distinguishable encoders, byte-identical transcoded outputs
come from the same encoder and therefore carry the same extension. -/
theorem resizeBuffer_ext_unique (env : Env) (hEnc : EncodersDistinct env)
    (b₁ b₂ : List Nat) (m₁ m₂ : String) (p₁ p₂ : Processed)
    (h₁ : resizeBuffer env b₁ m₁ = Except.ok p₁)
    (h₂ : resizeBuffer env b₂ m₂ = Except.ok p₂)
    (hb : p₁.buffer = p₂.buffer) : p₁.ext = p₂.ext := by
  obtain ⟨hJP, hJW, hJG, hPW, hPG, hWG⟩ := hEnc
  rcases resizeBuffer_cases env b₁ m₁ p₁ h₁ with
    ⟨he₁, hm₁, hc₁⟩ | ⟨he₁, hm₁, hc₁⟩ | ⟨he₁, hm₁, hc₁⟩ | ⟨he₁, hm₁, hc₁⟩ <;>
  rcases resizeBuffer_cases env b₂ m₂ p₂ h₂ with
    ⟨he₂, hm₂, hc₂⟩ | ⟨he₂, hm₂, hc₂⟩ | ⟨he₂, hm₂, hc₂⟩ | ⟨he₂, hm₂, hc₂⟩ <;>
  first
    | exact he₁.trans he₂.symm
    | exact absurd hb (hJP _ _ _ _ hc₁ hc₂)
    | exact absurd hb.symm (hJP _ _ _ _ hc₂ hc₁)
    | exact absurd hb (hJW _ _ _ _ hc₁ hc₂)
    | exact absurd hb.symm (hJW _ _ _ _ hc₂ hc₁)
    | exact absurd hb (hJG _ _ _ _ hc₁ hc₂)
    | exact absurd hb.symm (hJG _ _ _ _ hc₂ hc₁)
    | exact absurd hb (hPW _ _ _ _ hc₁ hc₂)
    | exact absurd hb.symm (hPW _ _ _ _ hc₂ hc₁)
    | exact absurd hb (hPG _ _ _ _ hc₁ hc₂)
    | exact absurd hb.symm (hPG _ _ _ _ hc₂ hc₁)
    | exact absurd hb (hWG _ _ _ _ hc₁ hc₂)
    | exact absurd hb.symm (hWG _ _ _ _ hc₂ hc₁)

/-- The key presented to the store by a fresh attempt is always the content
addressed key of the transcoded output, and a completed attempt records
exactly that key in the manifest record. -/
theorem doFresh_headKey (env : Env) (idx : Nat) (et lm : Option String)
    (ct : String) (body : List Nat) (p : Processed)
    (h : resizeBuffer env body ct = Except.ok p) :
    (doFresh env idx et lm ct body).2.headCalls = [storedKey env p] ∧
    (∀ k rec up, (doFresh env idx et lm ct body).1 = AttemptOutcome.fresh k rec up →
      k = storedKey env p ∧ rec.r2Key = some (storedKey env p) ∧
      rec.mime = some p.mime) := by
  unfold doFresh
  simp only [h]
  rcases hh : env.headR2 idx (storedKey env p) with msg | ex
  · refine ⟨by simp [hh], ?_⟩
    intro k rec up hfr
    simp [hh] at hfr
  · cases ex with
    | true =>
      refine ⟨by simp [hh], ?_⟩
      intro k rec up hfr
      simp [hh] at hfr
      obtain ⟨hk, hrec, _⟩ := hfr
      subst hk
      rw [← hrec]
      exact ⟨rfl, rfl, rfl⟩
    | false =>
      rcases hp : env.putR2 idx (storedKey env p) with m2 | u
      · refine ⟨by simp [hh, hp], ?_⟩
        intro k rec up hfr
        simp [hh, hp] at hfr
      · refine ⟨by simp [hh, hp], ?_⟩
        intro k rec up hfr
        simp [hh, hp] at hfr
        obtain ⟨hk, hrec, _⟩ := hfr
        subst hk
        rw [← hrec]
        exact ⟨rfl, rfl, rfl⟩

/-- C3: on a successful transcode the object key is computed as the img
prefix, the sha1 digest of the transcoded bytes (not the source bytes) and
the canonical extension, the key presented to HEAD and written into the
manifest record is exactly this key, and (for encoders whose formats are
byte-distinguishable) two URLs with byte-identical transcoded outputs
resolve to the same stored key. -/
theorem claim_C3 (env : Env) (idx₁ : Nat) (et₁ lm₁ : Option String)
    (ct₁ ct₂ : String) (b₁ b₂ : List Nat) (p₁ p₂ : Processed)
    (h₁ : resizeBuffer env b₁ ct₁ = Except.ok p₁)
    (h₂ : resizeBuffer env b₂ ct₂ = Except.ok p₂) :
    storedKey env p₁ = "img/" ++ env.sha1 p₁.buffer ++ "." ++ p₁.ext ∧
    (doFresh env idx₁ et₁ lm₁ ct₁ b₁).2.headCalls = [storedKey env p₁] ∧
    (∀ k rec up, (doFresh env idx₁ et₁ lm₁ ct₁ b₁).1 = AttemptOutcome.fresh k rec up →
      k = storedKey env p₁ ∧ rec.r2Key = some (storedKey env p₁)) ∧
    (EncodersDistinct env → p₁.buffer = p₂.buffer →
      storedKey env p₁ = storedKey env p₂) := by
  obtain ⟨hhead, hfresh⟩ := doFresh_headKey env idx₁ et₁ lm₁ ct₁ b₁ p₁ h₁
  refine ⟨rfl, hhead, ?_, ?_⟩
  · intro k rec up hfr
    obtain ⟨hk, hr, _⟩ := hfresh k rec up hfr
    exact ⟨hk, hr⟩
  · intro hEnc hb
    have hext := resizeBuffer_ext_unique env hEnc b₁ b₂ ct₁ ct₂ p₁ p₂ h₁ h₂ hb
    unfold storedKey
    rw [hb, hext]

/-- C3 witness: the content addressed key at a concrete transcode, with the
tagged encoders of envHeadOnce discharging the distinguishability
hypothesis. -/
theorem claim_C3_witness :
    storedKey envHeadOnce ⟨[2, 7], "image/png", "png"⟩ =
      "img/" ++ envHeadOnce.sha1 [2, 7] ++ "." ++ "png" ∧
    (doFresh envHeadOnce 2 none none "image/png" [7]).2.headCalls =
      [storedKey envHeadOnce ⟨[2, 7], "image/png", "png"⟩] ∧
    storedKey envHeadOnce ⟨[2, 7], "image/png", "png"⟩ =
      storedKey envHeadOnce ⟨[2, 7], "image/png", "png"⟩ := by
  have hdist : EncodersDistinct envHeadOnce := by
    refine ⟨?_, ?_, ?_, ?_, ?_, ?_⟩ <;>
      (intro x y a b ha hb
       injection ha with ha2
       injection hb with hb2
       subst ha2
       subst hb2
       simp)
  have h := claim_C3 envHeadOnce 2 none none "image/png" "image/png" [7] [7]
    ⟨[2, 7], "image/png", "png"⟩ ⟨[2, 7], "image/png", "png"⟩ rfl rfl
  exact ⟨h.1, h.2.1, h.2.2.2 hdist rfl⟩

/-! Claim C8. -/

/-- Output URL lists are duplicate free. -/
theorem dedupSortUrls_nodup (urls : List String) : (dedupSortUrls urls).Nodup :=
  ((List.perm_insertionSort _ _).nodup_iff).mpr (dedupFirst_nodup urls)

/-- Output URL lists are sorted. -/
theorem dedupSortUrls_sorted (urls : List String) :
    List.Sorted (fun a b : String => a ≤ b) (dedupSortUrls urls) :=
  List.sorted_insertionSort _ _

/-- C8: duplicate URLs inside one entry are processed once (the unique URL
list is duplicate free and the URL loop visits exactly that list), and the
assembled output is sorted by identifier with each entry carrying a
duplicate free, lexicographically sorted URL list, whatever order the
per-entry results arrived in. -/
theorem claim_C8 :
    (∀ urls : List String, (uniqueUrls urls).Nodup) ∧
    (∀ (env : Env) (pb : String) (prevM nm0 : List (String × ManifestRecord))
       (stats0 : Stats) (entry : Entry), entry.offerId ≠ "" →
      ((processOffer env pb prevM nm0 stats0 entry).2.trace).map Prod.fst =
        uniqueUrls entry.urls) ∧
    (∀ rs : List OfferResult,
      List.Sorted offerLe (assembleOffers rs) ∧
      ∀ r ∈ assembleOffers rs, r.urls.Nodup ∧
        List.Sorted (fun a b : String => a ≤ b) r.urls) := by
  refine ⟨fun urls => dedupFirst_nodup _, ?_, ?_⟩
  · intro env pb prevM nm0 stats0 entry hid
    unfold processOffer
    by_cases hurls : entry.urls = []
    · simp [hid, hurls, uniqueUrls, dedupFirst, dedupGo]
    · by_cases hus : uniqueUrls entry.urls = []
      · simp [hid, hurls, hus]
      · simp only [hid, if_false, hurls, hus]
        rw [foldl_trace]
        simp
  · intro rs
    refine ⟨List.sorted_insertionSort _ _, ?_⟩
    intro r hr
    have hmem : r ∈ rs.map (fun r => ⟨r.offerId, dedupSortUrls r.urls⟩) :=
      (List.perm_insertionSort offerLe _).subset hr
    obtain ⟨r0, _, rfl⟩ := List.mem_map.mp hmem
    exact ⟨dedupSortUrls_nodup _, dedupSortUrls_sorted _⟩

/-- C8 witness: the dedup and sorting behaviour at concrete inputs. -/
theorem claim_C8_witness :
    (uniqueUrls ["u1", "u1"]).Nodup ∧
    ((processOffer envFail "pb" [] [] zeroStats ⟨"A1", ["u1", "u1"]⟩).2.trace).map Prod.fst =
      uniqueUrls ["u1", "u1"] ∧
    List.Sorted offerLe (assembleOffers [⟨"B", ["y", "x", "x"]⟩, ⟨"A", ["z"]⟩]) ∧
    ∀ r ∈ assembleOffers [⟨"B", ["y", "x", "x"]⟩, ⟨"A", ["z"]⟩],
      r.urls.Nodup ∧ List.Sorted (fun a b : String => a ≤ b) r.urls :=
  ⟨claim_C8.1 ["u1", "u1"],
   claim_C8.2.1 envFail "pb" [] [] zeroStats ⟨"A1", ["u1", "u1"]⟩ (by decide),
   (claim_C8.2.2 [⟨"B", ["y", "x", "x"]⟩, ⟨"A", ["z"]⟩]).1,
   (claim_C8.2.2 [⟨"B", ["y", "x", "x"]⟩, ⟨"A", ["z"]⟩]).2⟩

/-! Claim C6. -/

/-- The recursive value pass over object fields is a map. -/
theorem sortFieldsDeep_map (l : List (String × Json)) :
    sortFieldsDeep l = l.map (fun p => (p.1, sortObjectDeep p.2)) := by
  induction l with
  | nil => simp [sortFieldsDeep]
  | cons p t ih =>
    rcases p with ⟨k, v⟩
    simp [sortFieldsDeep, ih]

/-- On fields whose values are plain strings the value pass is the
identity. -/
theorem sortFieldsDeep_str (l : List (String × Json))
    (h : ∀ p ∈ l, ∃ s, p.2 = Json.str s) : sortFieldsDeep l = l := by
  induction l with
  | nil => simp [sortFieldsDeep]
  | cons p t ih =>
    rcases p with ⟨k, v⟩
    obtain ⟨s, hs⟩ := h ⟨k, v⟩ (List.mem_cons_self _ _)
    simp only at hs
    subst hs
    rw [sortFieldsDeep]
    rw [ih (fun q hq => h q (List.mem_cons_of_mem _ hq))]
    rw [sortObjectDeep]

/-- Fields produced by an optional manifest field are string valued. -/
theorem optField_str (k : String) (o : Option String) :
    ∀ p ∈ optField k o, ∃ s, p.2 = Json.str s := by
  intro p hp
  cases o with
  | none => simp [optField] at hp
  | some s =>
    simp [optField] at hp
    subst hp
    exact ⟨s, rfl⟩

/-- All manifest record fields are string valued. -/
theorem recordFields_str (r : ManifestRecord) :
    ∀ p ∈ recordFields r, ∃ s, p.2 = Json.str s := by
  intro p hp
  unfold recordFields at hp
  rcases List.mem_append.mp hp with h1 | h2
  · rcases List.mem_append.mp h1 with h3 | h4
    · rcases List.mem_append.mp h3 with h5 | h6
      · exact optField_str _ _ p h5
      · exact optField_str _ _ p h6
    · exact optField_str _ _ p h4
  · exact optField_str _ _ p h2

/-- Canonical form of one record: its fields sorted by key. -/
theorem sortObjectDeep_record (r : ManifestRecord) :
    sortObjectDeep (recordJson r) = Json.obj (sortPairs (recordFields r)) := by
  unfold recordJson
  rw [sortObjectDeep]
  rw [sortFieldsDeep_str _ (recordFields_str r)]

/-- Canonical form of a manifest: records canonicalized and the URL keys
sorted. -/
theorem canonical_manifest (m : List (String × ManifestRecord)) :
    sortObjectDeep (manifestJson m) =
      Json.obj (sortPairs (m.map (fun p =>
        (p.1, Json.obj (sortPairs (recordFields p.2)))))) := by
  unfold manifestJson
  rw [sortObjectDeep, sortFieldsDeep_map, List.map_map]
  congr 1
  congr 1
  apply List.map_congr_left
  intro p hp
  simp [Function.comp, sortObjectDeep_record]

/-- A key-sorted list with duplicate free keys is strictly key-sorted. -/
theorem sorted_keyLt_of_nodup (l : List (String × Json))
    (hs : List.Sorted keyLe l) (hn : (l.map Prod.fst).Nodup) :
    List.Sorted keyLt l := by
  have hne : List.Pairwise (fun a b : String × Json => a.1 ≠ b.1) l :=
    List.pairwise_map.mp hn
  exact (hs.and hne).imp (fun h => lt_of_le_of_ne h.1 h.2)

/-- Key sorting of two permuted field lists with duplicate free keys gives
the same list. -/
theorem sortPairs_perm_eq (l₁ l₂ : List (String × Json)) (hp : l₁.Perm l₂)
    (hn : (l₁.map Prod.fst).Nodup) : sortPairs l₁ = sortPairs l₂ := by
  have h₁ : List.Sorted keyLe (sortPairs l₁) := List.sorted_insertionSort _ _
  have h₂ : List.Sorted keyLe (sortPairs l₂) := List.sorted_insertionSort _ _
  have hpp : (sortPairs l₁).Perm (sortPairs l₂) :=
    (List.perm_insertionSort _ _).trans (hp.trans (List.perm_insertionSort _ _).symm)
  have hk₁ : ((sortPairs l₁).map Prod.fst).Nodup :=
    (((List.perm_insertionSort keyLe l₁).map Prod.fst).nodup_iff).mpr hn
  have hk₂ : ((sortPairs l₂).map Prod.fst).Nodup := by
    refine (((List.perm_insertionSort keyLe l₂).map Prod.fst).nodup_iff).mpr ?_
    exact ((hp.map Prod.fst).nodup_iff).mp hn
  exact List.eq_of_perm_of_sorted hpp
    (sorted_keyLt_of_nodup _ h₁ hk₁) (sorted_keyLt_of_nodup _ h₂ hk₂)

/-- C6: the canonical serialization sorts the URL keys and the keys inside
every record, two manifests with the same content (permuted entries,
duplicate free keys) serialize to identical bytes, and the manifest is
mirrored to the store exactly when the canonical serializations of the
previous and next manifests differ. -/
theorem claim_C6 (m₁ m₂ : List (String × ManifestRecord)) (prev next : Json) :
    ((m₁.map Prod.fst).Nodup → m₁.Perm m₂ →
      manifestString (manifestJson m₁) = manifestString (manifestJson m₂)) ∧
    (List.Pairwise (fun a b : String => a ≤ b)
      (objKeys (sortObjectDeep (manifestJson m₁))) ∧
     ∀ p ∈ objFields (sortObjectDeep (manifestJson m₁)),
       List.Pairwise (fun a b : String => a ≤ b) (objKeys p.2)) ∧
    (mirroredToStore prev next = true ↔
      manifestString next ≠ manifestString prev) := by
  refine ⟨?_, ⟨?_, ?_⟩, ?_⟩
  · intro hn hp
    unfold manifestString
    rw [canonical_manifest, canonical_manifest]
    congr 2
    apply sortPairs_perm_eq
    · exact hp.map _
    · have hkeys : ((m₁.map (fun p =>
        (p.1, Json.obj (sortPairs (recordFields p.2))))).map Prod.fst) =
          m₁.map Prod.fst := by
        rw [List.map_map]
        rfl
      rw [hkeys]
      exact hn
  · rw [canonical_manifest]
    simp only [objKeys]
    exact List.pairwise_map.mpr
      ((List.sorted_insertionSort keyLe _).imp (fun h => h))
  · intro p hpmem
    rw [canonical_manifest] at hpmem
    simp only [objFields] at hpmem
    have hmem := (List.perm_insertionSort keyLe _).subset hpmem
    obtain ⟨q, _, rfl⟩ := List.mem_map.mp hmem
    simp only [objKeys]
    exact List.pairwise_map.mpr
      ((List.sorted_insertionSort keyLe _).imp (fun h => h))
  · simp [mirroredToStore, manifestChanged, bne_iff_ne]

/-- C6 witness: two orderings of the same manifest content serialize to the
same bytes, and the mirror decision is the serialization inequality. -/
theorem claim_C6_witness :
    manifestString (manifestJson [("b", recFull), ("a", recNoKey)]) =
      manifestString (manifestJson [("a", recNoKey), ("b", recFull)]) ∧
    (mirroredToStore Json.null Json.null = true ↔
      manifestString Json.null ≠ manifestString Json.null) :=
  ⟨(claim_C6 [("b", recFull), ("a", recNoKey)] [("a", recNoKey), ("b", recFull)]
      Json.null Json.null).1 (by decide) (List.Perm.swap _ _ _),
   (claim_C6 [] [] Json.null Json.null).2.2⟩
